import Mathlib

/-!
Verification of the AI-Builder-Orchestrator core: the agent registry
(`agent-manager.js`), the agent-selection scoring, the orchestration
lifecycle (`orchestration.js`), and the task queue / scheduler
(`task-queue.js`).  JavaScript objects are embedded as Lean structures,
the in-memory `Map` of agents as a list in insertion order (a JS `Map`
iterates in insertion order and `set` on an existing key keeps its
position), JS numbers holding counters as `Int`/`Nat`, and the derived
`successRate`/score arithmetic as exact rationals.  Timestamp fields
(`lastHeartbeat`, `createdAt`, `startedAt`, ...) carry no logic used by
any property and are omitted from the state.  Functions that `throw`
are embedded with `Except`; a thrown error surfaces before any mutation,
so the error branches return no new state.
-/

/-! ### String helpers

`String.prototype.includes` / `toLowerCase` from JavaScript, embedded as
structurally recursive functions on the character list so that they
evaluate inside the kernel. -/

/-- Whether `pat` starts `s`: true when `pat` occurs at the start of `s`. -/
def charsStartWith : List Char → List Char → Bool
  | _, [] => true
  | [], _ :: _ => false
  | c :: cs, d :: ds => c == d && charsStartWith cs ds

/-- Whether `pat` occurs in `s`: true when `pat` occurs contiguously anywhere in `s`
(JavaScript `s.includes(pat)`). -/
def charsContain (s pat : List Char) : Bool :=
  charsStartWith s pat ||
    match s with
    | [] => false
    | _ :: cs => charsContain cs pat

/-- JavaScript `s.toLowerCase()` (on the code's ASCII keyword strings). -/
def strToLower (s : String) : String := ⟨s.data.map Char.toLower⟩

/-- JavaScript `s.includes(sub)`. -/
def strIncludes (s sub : String) : Bool := charsContain s.data sub.data

/-! ### Agent registry (`agent-manager.js`) -/

/-- Agent status: `'active' | 'inactive'`. -/
inductive AgentStatus where
  | active
  | inactive
deriving Repr, DecidableEq

/-- The `performance` sub-object of an agent.  `averageExecutionTime` is
initialized to `0` and never written by any studied operation, so it is kept
only as a constant field shape (omitted). -/
structure Performance where
  totalTasks : Nat
  completedTasks : Nat
  failedTasks : Nat
  successRate : ℚ
deriving Repr, DecidableEq

/-- The `configuration` sub-object of an agent: the fields the core reads.
`max_concurrent_tasks` may be absent (JS `undefined`), hence `Option`. -/
structure AgentConfig where
  maxConcurrentTasksCfg : Option Nat
  preferredLanguages : List String
  specializations : List String
deriving Repr, DecidableEq

/-- The argument object of `registerAgent`. -/
structure AgentSpec where
  name : String
  agentType : String
  capabilities : List String
  configuration : AgentConfig
deriving Repr, DecidableEq

/-- An agent record as built by `registerAgent`. -/
structure Agent where
  name : String
  agentType : String
  status : AgentStatus
  capabilities : List String
  configuration : AgentConfig
  currentTasks : Int
  maxConcurrentTasks : Int
  performance : Performance
deriving Repr, DecidableEq

/-- The `agents` map, as its insertion-ordered entry list. -/
abbrev Registry := List Agent

/-- JS `Map.set` keyed by name: replace in place if the key exists, else
append. -/
def upsertAgent : Registry → Agent → Registry
  | [], a => [a]
  | b :: rest, a => if b.name = a.name then a :: rest else b :: upsertAgent rest a

/-- Embeds `registerAgent(agentData)`: builds the agent record (counters zero, status
active, `maxConcurrentTasks = configuration?.max_concurrent_tasks || 5`, where
JS `||` also replaces a falsy `0`) and stores it under its name. -/
def registerAgent (reg : Registry) (spec : AgentSpec) : Agent × Registry :=
  let maxTasks : Nat :=
    match spec.configuration.maxConcurrentTasksCfg with
    | none => 5
    | some 0 => 5
    | some (n + 1) => n + 1
  let agent : Agent :=
    { name := spec.name
      agentType := spec.agentType
      status := .active
      capabilities := spec.capabilities
      configuration := spec.configuration
      currentTasks := 0
      maxConcurrentTasks := (maxTasks : Int)
      performance := ⟨0, 0, 0, 0⟩ }
  (agent, upsertAgent reg agent)

/-- Embeds `this.agents.get(name)`. -/
def getAgentByName (reg : Registry) (name : String) : Option Agent :=
  reg.find? (fun a => a.name == name)

/-- Mutating the single map entry named `name` (JS mutates the object
returned by `Map.get`, i.e. the first and only entry with that key). -/
def updateAgent : Registry → String → (Agent → Agent) → Registry
  | [], _, _ => []
  | a :: rest, name, f =>
    if a.name = name then f a :: rest else a :: updateAgent rest name f

/-- Embeds `getAvailableAgents()`: active agents strictly below their capacity. -/
def getAvailableAgents (reg : Registry) : List Agent :=
  reg.filter (fun a => a.status == .active && decide (a.currentTasks < a.maxConcurrentTasks))

/-- Errors thrown by the agent manager. -/
inductive AgentError where
  | notFound (name : String)
  | capacityExceeded (name : String)
  | noAvailableAgent
deriving Repr, DecidableEq

/-- Embeds `extractRequiredCapabilities(task)`: pushes the capabilities of every
matching substring rule onto an array, in source order, defaulting to
`[code_generation, problem_solving]` when nothing matched.  Note the array
may contain duplicates (e.g. `testing` pushed by both the build rule and the
test rule). -/
def extractRequiredCapabilities (task : String) : List String :=
  let taskLower := strToLower task
  let caps :=
    (if strIncludes taskLower "build" || strIncludes taskLower "compile" then
      ["code_generation", "testing"] else []) ++
    (if strIncludes taskLower "test" || strIncludes taskLower "testing" then
      ["testing"] else []) ++
    (if strIncludes taskLower "deploy" || strIncludes taskLower "deployment" then
      ["deployment"] else []) ++
    (if strIncludes taskLower "debug" || strIncludes taskLower "fix" then
      ["debugging"] else []) ++
    (if strIncludes taskLower "refactor" || strIncludes taskLower "optimize" then
      ["refactoring"] else []) ++
    (if strIncludes taskLower "document" || strIncludes taskLower "readme" then
      ["documentation"] else []) ++
    (if strIncludes taskLower "architecture" || strIncludes taskLower "design" then
      ["architecture_design"] else []) ++
    (if strIncludes taskLower "review" || strIncludes taskLower "analyze" then
      ["code_review", "analysis"] else [])
  if caps.isEmpty then ["code_generation", "problem_solving"] else caps

/-- Embeds `determineTaskType(task)`: first matching keyword rule wins. -/
def determineTaskType (task : String) : String :=
  let taskLower := strToLower task
  if strIncludes taskLower "web" || strIncludes taskLower "frontend" ||
      strIncludes taskLower "react" || strIncludes taskLower "vue" then
    "web_development"
  else if strIncludes taskLower "api" || strIncludes taskLower "backend" ||
      strIncludes taskLower "server" then
    "api_development"
  else if strIncludes taskLower "microservice" || strIncludes taskLower "service" then
    "microservices"
  else if strIncludes taskLower "mobile" || strIncludes taskLower "app" then
    "mobile_development"
  else if strIncludes taskLower "data" || strIncludes taskLower "ml" ||
      strIncludes taskLower "ai" then
    "data_science"
  else
    "general_development"

/-- The `projectContext` argument: the field the selector reads
(`technology_stack || []`). -/
structure ProjectContext where
  technologyStack : List String
deriving Repr, DecidableEq

/-- The score computed per available agent inside `selectBestAgent`.  The
capability and language ratios divide the *array lengths* produced by
`filter`, so duplicate entries in the required-capability array count with
multiplicity. -/
def scoreAgent (agent : Agent) (task : String) (ctx : ProjectContext) : ℚ :=
  let requiredCapabilities := extractRequiredCapabilities task
  let matchingCapabilities :=
    requiredCapabilities.filter (fun cap => agent.capabilities.contains cap)
  let preferredLanguages := ctx.technologyStack
  let matchingLanguages :=
    preferredLanguages.filter (fun lang => agent.configuration.preferredLanguages.contains lang)
  let specBonus : ℚ :=
    if agent.configuration.specializations.contains (determineTaskType task) then 20 else 0
  let loadRatio : ℚ := (agent.currentTasks : ℚ) / (agent.maxConcurrentTasks : ℚ)
  agent.performance.successRate * 100 +
    ((matchingCapabilities.length : ℚ) / (requiredCapabilities.length : ℚ)) * 50 +
    ((matchingLanguages.length : ℚ) / (max (preferredLanguages.length : ℚ) 1)) * 30 +
    specBonus - loadRatio * 20

/-- The comparator `(a, b) => b.score - a.score` used on the scored array:
`p` sorts no later than `q` exactly when `q`'s score is `≤` `p`'s.  JS
`Array.prototype.sort` is stable, so the embedding sorts with the stable
`mergeSort`. -/
def byScoreDesc (p q : Agent × ℚ) : Bool := decide (q.2 ≤ p.2)

/-- Embeds `selectBestAgent(task, projectContext)`: throws when no agent is
available, otherwise stably sorts the scored available agents by descending
score and returns element `0`. -/
def selectBestAgent (reg : Registry) (task : String) (ctx : ProjectContext) :
    Except AgentError Agent :=
  let availableAgents := getAvailableAgents reg
  if availableAgents.isEmpty then
    .error .noAvailableAgent
  else
    let scoredAgents := availableAgents.map (fun agent => (agent, scoreAgent agent task ctx))
    match scoredAgents.mergeSort byScoreDesc with
    | best :: _ => .ok best.1
    | [] => .error .noAvailableAgent

/-- Embeds `assignTaskToAgent(agentName, taskId)`: throws `NotFound` for an unknown
name, throws `CapacityExceeded` at `currentTasks >= maxConcurrentTasks`,
otherwise increments `currentTasks` of that one map entry.  Both throws
happen before any mutation. -/
def assignTaskToAgent (reg : Registry) (agentName : String) (_taskId : String) :
    Except AgentError (Agent × Registry) :=
  match getAgentByName reg agentName with
  | none => .error (.notFound agentName)
  | some agent =>
    if agent.maxConcurrentTasks ≤ agent.currentTasks then
      .error (.capacityExceeded agentName)
    else
      let agent' := { agent with currentTasks := agent.currentTasks + 1 }
      .ok (agent', updateAgent reg agentName (fun _ => agent'))

/-- The per-agent effect of `releaseTaskFromAgent`: floor-0 decrement of
`currentTasks`, bump the counters, recompute `successRate`. -/
def releaseAgentUpdate (a : Agent) (success : Bool) : Agent :=
  let total := a.performance.totalTasks + 1
  let completed := a.performance.completedTasks + (if success then 1 else 0)
  let failed := a.performance.failedTasks + (if success then 0 else 1)
  { a with
    currentTasks := max 0 (a.currentTasks - 1)
    performance :=
      { totalTasks := total
        completedTasks := completed
        failedTasks := failed
        successRate := (completed : ℚ) / (total : ℚ) } }

/-- Embeds `releaseTaskFromAgent(agentName, taskId, success)`: a warning-only
no-op when the name is unknown, otherwise applies `releaseAgentUpdate` to
that one map entry.  It never throws. -/
def releaseTaskFromAgent (reg : Registry) (agentName : String) (_taskId : String)
    (success : Bool) : Registry :=
  match getAgentByName reg agentName with
  | none => reg
  | some _ => updateAgent reg agentName (fun a => releaseAgentUpdate a success)

/-- One reserve or release call against the registry. -/
inductive RegOp where
  | reserve (agentName taskId : String)
  | release (agentName taskId : String) (success : Bool)
deriving Repr, DecidableEq

/-- The registry after one call, as seen by a caller that catches the
reservation throw (a throw happens before any mutation, so the registry is
unchanged on failure). -/
def regStep (reg : Registry) (op : RegOp) : Registry :=
  match op with
  | .reserve n tid =>
    match assignTaskToAgent reg n tid with
    | .ok (_, reg') => reg'
    | .error _ => reg
  | .release n tid s => releaseTaskFromAgent reg n tid s

/-- The capacity invariant of a single agent record. -/
def agentInv (a : Agent) : Prop :=
  0 ≤ a.currentTasks ∧ a.currentTasks ≤ a.maxConcurrentTasks

instance : DecidablePred agentInv := fun a => by unfold agentInv; infer_instance

/-- The success-rate invariant of a performance record. -/
def perfInv (p : Performance) : Prop :=
  (p.totalTasks = 0 → p.successRate = 0) ∧
    (0 < p.totalTasks → p.successRate = (p.completedTasks : ℚ) / (p.totalTasks : ℚ))

/-! ### Stable descending sort, generically

JS `array.sort(cmp)` with `cmp = (a, b) => rank(b) - rank(a)` is a stable
descending sort by `rank`; we embed it as `mergeSort` with the relation
`descLE`.  The lemmas characterize its head as the first element attaining
the maximal rank. -/

/-- Comparator relation: `a` sorts no later than `b` under descending order by `f`. -/
def descLE {α : Type} {β : Type} [LinearOrder β] (f : α → β) (p q : α) : Bool :=
  decide (f q ≤ f p)

/-! ### Task queue / scheduler (`task-queue.js`) -/

/-- Task priority bands. -/
inductive Priority where
  | low
  | medium
  | high
  | urgent
deriving Repr, DecidableEq

/-- Rank table of the comparator, `urgent: 4, high: 3, medium: 2, low: 1`. -/
def priorityOrder : Priority → Nat
  | .urgent => 4
  | .high => 3
  | .medium => 2
  | .low => 1

/-- Task lifecycle status strings of `task-queue.js` (the spec's
`in_progress` is the source's `processing`). -/
inductive TaskStatus where
  | queued
  | processing
  | completed
  | failed
  | cancelled
deriving Repr, DecidableEq

/-- A task object held by the queue; timestamp fields are omitted, and the
JS `retryCount` that may start `undefined` is a `Nat` (its `|| 0` default). -/
structure QTask where
  id : String
  description : String
  priority : Priority
  status : TaskStatus
  retryCount : Nat
  errorMessage : Option String
deriving Repr, DecidableEq

/-- A value of the `failed` map: `{ task, error }` keyed by the task id. -/
structure FailedEntry where
  id : String
  task : QTask
  errMsg : String
deriving Repr, DecidableEq

/-- The mutable state of `TaskQueue`: the pending array, the `processing`
id set (as its element list) and the `failed` map (as its entry list). -/
structure SchedState where
  queue : List QTask
  processing : List String
  failed : List FailedEntry
deriving Repr, DecidableEq

/-- The in-place `this.queue.sort(...)` by descending priority rank; JS sort
is stable. -/
def sortQueue (q : List QTask) : List QTask :=
  q.mergeSort (descLE (fun t => priorityOrder t.priority))

/-- One iteration of the `processQueue` dispatch loop: sort the queue, then
dispatch the head task — note, at most one per iteration — when the queue is
non-empty and fewer than 10 tasks are processing.  Starting the task adds its
id to `processing`; the asynchronous terminal handling is outside the
iteration. -/
def processIteration (s : SchedState) : SchedState :=
  let sorted := sortQueue s.queue
  match sorted, decide (s.processing.length < 10) with
  | t :: rest, true => { s with queue := rest, processing := s.processing ++ [t.id] }
  | q, _ => { s with queue := q }

/-- Modelled from the spec: the claimed per-iteration drain loop, which keeps
dequeuing heads "while `runningCount < maxConcurrency` and queue non-empty".
This definition follows the claim's words, for comparison with the source's
`processIteration`. -/
def drainLoop : List QTask → List String → List QTask × List String
  | [], proc => ([], proc)
  | t :: rest, proc =>
    if proc.length < 10 then drainLoop rest (proc ++ [t.id]) else (t :: rest, proc)

/-- Modelled from the spec: one iteration as the claim states it — sort, then
drain heads while below capacity. -/
def claimIteration (s : SchedState) : SchedState :=
  let result := drainLoop (sortQueue s.queue) s.processing
  { s with queue := result.1, processing := result.2 }

/-- Errors thrown by `cancelTask` / `retryTask`. -/
inductive QueueError where
  | cancellationRejected
  | notFound (taskId : String)
deriving Repr, DecidableEq

/-- Embeds `cancelTask(taskId)`: splice the task out of the pending queue and mark
it cancelled; throw for a task that is currently processing; throw `NotFound`
otherwise.  Both throws happen before any mutation. -/
def cancelTask (s : SchedState) (taskId : String) :
    Except QueueError (QTask × SchedState) :=
  match s.queue.find? (fun t => t.id == taskId) with
  | some t =>
    let t' := { t with status := TaskStatus.cancelled }
    .ok (t', { s with queue := s.queue.eraseP (fun u => u.id == taskId) })
  | none =>
    if s.processing.contains taskId then
      .error .cancellationRejected
    else
      .error (.notFound taskId)

/-- Embeds `retryTask(taskId)`: only for an entry of the `failed` map; deletes the
entry, re-queues the task at the tail with status `queued`, `retryCount`
bumped and `error` cleared. -/
def retryTask (s : SchedState) (taskId : String) :
    Except QueueError (QTask × SchedState) :=
  match s.failed.find? (fun e => e.id == taskId) with
  | none => .error (.notFound taskId)
  | some e =>
    let t := e.task
    let t' := { t with
      status := TaskStatus.queued
      retryCount := t.retryCount + 1
      errorMessage := none }
    .ok (t', { s with
      failed := s.failed.eraseP (fun e' => e'.id == taskId)
      queue := s.queue ++ [t'] })

/-- The task object as `retryTask` re-queues it: status `queued`,
`retryCount` bumped, `error` and `failedAt` cleared. -/
def retriedTask (t : QTask) : QTask :=
  { t with
    status := TaskStatus.queued
    retryCount := t.retryCount + 1
    errorMessage := none }

/-- The queue state after a `cancelTask` call whose throw is caught. -/
def cancelTaskStep (s : SchedState) (taskId : String) : SchedState :=
  match cancelTask s taskId with
  | .ok (_, s') => s'
  | .error _ => s

/-! ### Orchestration lifecycle (`orchestration.js`) -/

/-- The columns of a task row that `updateTaskStatus` can touch. -/
structure TaskRow where
  status : String
  progress : Nat
  result : Option String
  errorMessage : Option String
deriving Repr, DecidableEq

/-- Embeds `database.updateTaskStatus(taskId, status, progress, result, error)`:
always sets `status`; sets each remaining column only when the argument is
non-null. -/
def updateTaskStatus (row : TaskRow) (status : String) (progress : Option Nat)
    (result : Option String) (errorMessage : Option String) : TaskRow :=
  { status := status
    progress := progress.getD row.progress
    result := match result with
      | some r => some r
      | none => row.result
    errorMessage := match errorMessage with
      | some e => some e
      | none => row.errorMessage }

/-- Embeds `executeTaskWithAgent(agent, taskId, taskArgs)`, parameterized by the
opaque Task Executor's outcome (the per-agent-type simulation branch).  The
`try` branch records completion and releases with `success = true`; the
`catch` branch records failure and releases with `success = false`, then
rethrows.  The returned trace lists the success flag of every
`releaseTaskFromAgent` call made for this execution; database log calls do
not touch the modeled state. -/
def executeTaskWithAgent (reg : Registry) (agent : Agent) (taskId : String)
    (row : TaskRow) (outcome : Except String String) :
    Except String String × TaskRow × Registry × List Bool :=
  match outcome with
  | .ok result =>
    let row' := updateTaskStatus row "completed" (some 100) (some result) none
    let reg' := releaseTaskFromAgent reg agent.name taskId true
    (.ok result, row', reg', [true])
  | .error e =>
    let row' := updateTaskStatus row "failed" (some 0) none (some e)
    let reg' := releaseTaskFromAgent reg agent.name taskId false
    (.error e, row', reg', [false])

/-! ### Definitions following the claims' words, for refinement comparison -/

/-- Modelled from the spec: the required capability set as the claim words it
— the *union, without duplicates*, of the capabilities of all matching rule
rows, defaulting to `{code_generation, problem_solving}`. -/
def specRequiredCapabilities (task : String) : List String :=
  let taskLower := strToLower task
  let caps :=
    (if strIncludes taskLower "build" || strIncludes taskLower "compile" then
      ["code_generation", "testing"] else []) ++
    (if strIncludes taskLower "test" then ["testing"] else []) ++
    (if strIncludes taskLower "deploy" then ["deployment"] else []) ++
    (if strIncludes taskLower "debug" || strIncludes taskLower "fix" then
      ["debugging"] else []) ++
    (if strIncludes taskLower "refactor" || strIncludes taskLower "optimize" then
      ["refactoring"] else []) ++
    (if strIncludes taskLower "document" || strIncludes taskLower "readme" then
      ["documentation"] else []) ++
    (if strIncludes taskLower "architecture" || strIncludes taskLower "design" then
      ["architecture_design"] else []) ++
    (if strIncludes taskLower "review" || strIncludes taskLower "analyze" then
      ["code_review", "analysis"] else [])
  let deduped := caps.dedup
  if deduped.isEmpty then ["code_generation", "problem_solving"] else deduped

/-- Modelled from the spec: the claim's scoring formula, whose capability
term divides *set cardinalities* `|matching| / |required|` over the
duplicate-free required set. -/
def specScoreAgent (agent : Agent) (task : String) (ctx : ProjectContext) : ℚ :=
  let requiredCapabilities := specRequiredCapabilities task
  let matchingCapabilities :=
    requiredCapabilities.filter (fun cap => agent.capabilities.contains cap)
  let preferredLanguages := ctx.technologyStack
  let matchingLanguages :=
    preferredLanguages.filter (fun lang => agent.configuration.preferredLanguages.contains lang)
  let specBonus : ℚ :=
    if agent.configuration.specializations.contains (determineTaskType task) then 20 else 0
  let loadRatio : ℚ := (agent.currentTasks : ℚ) / (agent.maxConcurrentTasks : ℚ)
  agent.performance.successRate * 100 +
    ((matchingCapabilities.length : ℚ) / (requiredCapabilities.length : ℚ)) * 50 +
    ((matchingLanguages.length : ℚ) / (max (preferredLanguages.length : ℚ) 1)) * 30 +
    specBonus - loadRatio * 20

/-! ### Concrete instances used to exercise the theorems -/

/-- A freshly registered agent with capacity 2 (the record
`registerAgent` builds from `wSpec`). -/
def c2Start : Agent :=
  { name := "w"
    agentType := "ai_builder"
    status := .active
    capabilities := ["code_generation"]
    configuration := ⟨some 2, [], []⟩
    currentTasks := 0
    maxConcurrentTasks := 2
    performance := ⟨0, 0, 0, 0⟩ }

/-- The registration argument producing `c2Start`. -/
def wSpec : AgentSpec :=
  { name := "w"
    agentType := "ai_builder"
    capabilities := ["code_generation"]
    configuration := ⟨some 2, [], []⟩ }

/-- A one-agent registry. -/
def c2Reg : Registry := [c2Start]

/-- Three reservations against capacity 2: the third one throws. -/
def wOps : List RegOp := [.reserve "w" "t1", .reserve "w" "t2", .reserve "w" "t3"]

/-- State of `c2Start` after the two successful reservations. -/
def wFinal : Agent := { c2Start with currentTasks := 2 }

/-- A release sequence: one success, one failure. -/
def c2Calls : List (String × Bool) := [("t1", true), ("t2", false)]

/-- State of `c2Start` after `c2Calls`. -/
def c2Final : Agent :=
  { c2Start with
    performance := ⟨2, 1, 1, ((1 : Nat) : ℚ) / ((2 : Nat) : ℚ)⟩ }

/-- An empty project context (`technology_stack` absent). -/
def ctxEmpty : ProjectContext := ⟨[]⟩

/-- Identical agents except for success rates 0.9 / 0.5 / 0.2. -/
def exA09 : Agent :=
  { name := "nine"
    agentType := "ai_assistant"
    status := .active
    capabilities := ["code_generation", "problem_solving"]
    configuration := ⟨some 5, [], []⟩
    currentTasks := 0
    maxConcurrentTasks := 5
    performance := ⟨10, 9, 1, 9 / 10⟩ }

/-- The 0.5 success-rate sibling of `exA09`. -/
def exA05 : Agent :=
  { exA09 with name := "five", performance := ⟨10, 5, 5, 5 / 10⟩ }

/-- The 0.2 success-rate sibling of `exA09`. -/
def exA02 : Agent :=
  { exA09 with name := "two", performance := ⟨10, 2, 8, 2 / 10⟩ }

/-- The registry of the three-agent selection example. -/
def exReg : Registry := [exA09, exA05, exA02]

/-- An available agent whose only capability is `testing`. -/
def cexA : Agent :=
  { name := "alpha"
    agentType := "ai_builder"
    status := .active
    capabilities := ["testing"]
    configuration := ⟨some 5, [], []⟩
    currentTasks := 0
    maxConcurrentTasks := 5
    performance := ⟨0, 0, 0, 0⟩ }

/-- An available agent with capabilities `code_generation` and `deployment`. -/
def cexB : Agent :=
  { cexA with name := "beta", capabilities := ["code_generation", "deployment"] }

/-- The two-agent registry separating list-length from set-cardinality
scoring. -/
def cexReg : Registry := [cexA, cexB]

/-- A queued medium-priority task. -/
def qtMed1 : QTask := ⟨"m1", "first medium", .medium, .queued, 0, none⟩

/-- A second queued medium-priority task. -/
def qtMed2 : QTask := ⟨"m2", "second medium", .medium, .queued, 0, none⟩

/-- A queued urgent-priority task. -/
def qtUrg : QTask := ⟨"u1", "urgent one", .urgent, .queued, 0, none⟩

/-- Two queued tasks, nothing processing: the claimed drain loop would
dispatch both in one iteration, the source dispatches one. -/
def c7CexState : SchedState := ⟨[qtMed1, qtMed2], [], []⟩

/-- A medium task enqueued before an urgent one. -/
def c7WitState : SchedState := ⟨[qtMed1, qtUrg], [], []⟩

/-- A queue state with one queued task and one processing task id. -/
def c8State : SchedState := ⟨[qtMed1], ["p1"], []⟩

/-- A failed task as recorded in the `failed` map. -/
def qtFailed : QTask := ⟨"f1", "went wrong", .high, .failed, 1, some "boom"⟩

/-- A queue state with one failed entry. -/
def c9State : SchedState := ⟨[qtMed2], [], [⟨"f1", qtFailed, "boom"⟩]⟩

/-- A task row in flight. -/
def rowInProgress : TaskRow := ⟨"in_progress", 0, none, none⟩

/-! ### String and stable-sort lemmas -/

theorem charsStartWith_of_append {s p₁ p₂ : List Char}
    (h : charsStartWith s (p₁ ++ p₂)) : charsStartWith s p₁ := by
  induction p₁ generalizing s with
  | nil => simp [charsStartWith]
  | cons c cs ih =>
    cases s with
    | nil => simp [charsStartWith] at h
    | cons d ds =>
      simp only [List.cons_append, charsStartWith, Bool.and_eq_true] at h ⊢
      exact ⟨h.1, ih h.2⟩

theorem charsContain_of_append {s p₁ p₂ : List Char}
    (h : charsContain s (p₁ ++ p₂)) : charsContain s p₁ := by
  induction s with
  | nil =>
    rw [charsContain] at h ⊢
    simp only [Bool.or_false] at h ⊢
    exact charsStartWith_of_append h
  | cons c cs ih =>
    rw [charsContain] at h ⊢
    rcases Bool.or_eq_true_iff.mp h with h' | h'
    · exact Bool.or_eq_true_iff.mpr (Or.inl (charsStartWith_of_append h'))
    · exact Bool.or_eq_true_iff.mpr (Or.inr (ih h'))

theorem descLE_trans {α β : Type} [LinearOrder β] (f : α → β) :
    ∀ a b c : α, descLE f a b → descLE f b c → descLE f a c := by
  intro a b c h₁ h₂
  simp only [descLE, decide_eq_true_eq] at h₁ h₂ ⊢
  exact h₂.trans h₁

theorem descLE_total {α β : Type} [LinearOrder β] (f : α → β) :
    ∀ a b : α, descLE f a b || descLE f b a := by
  intro a b
  simp only [descLE, Bool.or_eq_true, decide_eq_true_eq]
  exact le_total (f b) (f a)

theorem head_mergeSort_spec {α β : Type} [LinearOrder β] (f : α → β) :
    ∀ l : List α, l ≠ [] →
      ∃ m mtl pre post, l.mergeSort (descLE f) = m :: mtl ∧
        l = pre ++ m :: post ∧ (∀ b ∈ pre, f b < f m) ∧ (∀ b ∈ post, f b ≤ f m) := by
  intro l
  induction l with
  | nil => intro h; exact absurd rfl h
  | cons a l ih =>
    intro _
    obtain ⟨l₁, l₂, h₁, h₂, h₃⟩ :=
      @List.mergeSort_cons _ (descLE f) (descLE_trans f) (descLE_total f) a l
    cases hl₁ : l₁ with
    | nil =>
      subst hl₁
      simp only [List.nil_append] at h₁ h₂
      refine ⟨a, l₂, [], l, h₁, rfl, by simp, ?_⟩
      intro b hb
      have hmem : b ∈ l₂ := by
        rw [← h₂]
        exact (List.mergeSort_perm l (descLE f)).mem_iff.mpr hb
      have hs := @List.sorted_mergeSort _ (descLE f) (descLE_trans f) (descLE_total f) (a :: l)
      rw [h₁] at hs
      have := (List.pairwise_cons.mp hs).1 b hmem
      simpa [descLE] using this
    | cons c l₁' =>
      subst hl₁
      have hlne : l ≠ [] := by
        intro h
        subst h
        simp [List.mergeSort] at h₂
      obtain ⟨m, mtl, pre, post, ih₁, ih₂, ih₃, ih₄⟩ := ih hlne
      rw [ih₁] at h₂
      injection h₂ with hmc htl
      refine ⟨m, l₁' ++ a :: l₂, a :: pre, post, ?_, ?_, ?_, ih₄⟩
      · rw [h₁, hmc]
        simp
      · rw [List.cons_append, ← ih₂]
      · intro b hb
        rcases List.mem_cons.mp hb with hb | hb
        · subst hb
          have h' := h₃ c (List.mem_cons_self c l₁')
          rw [hmc]
          simpa [descLE, not_le] using h'
        · exact ih₃ b hb

theorem mergeSort_pair {α : Type} (le : α → α → Bool) (a b : α) :
    [a, b].mergeSort le = if le a b then [a, b] else [b, a] := by
  rw [List.mergeSort]
  simp [List.splitInTwo, List.mergeSort, List.merge]

/-! ### Registry lemmas -/

theorem getAgentByName_some_split {reg : Registry} {name : String} {a : Agent}
    (h : getAgentByName reg name = some a) :
    a.name = name ∧ ∃ pre post, reg = pre ++ a :: post ∧ ∀ b ∈ pre, b.name ≠ name := by
  rw [getAgentByName, List.find?_eq_some] at h
  obtain ⟨hpa, pre, post, hsplit, hpre⟩ := h
  refine ⟨by simpa using hpa, pre, post, hsplit, ?_⟩
  intro b hb
  simpa using hpre b hb

theorem updateAgent_split (f : Agent → Agent) :
    ∀ (pre : List Agent) (a : Agent) (post : List Agent) (name : String),
      (∀ b ∈ pre, b.name ≠ name) → a.name = name →
      updateAgent (pre ++ a :: post) name f = pre ++ f a :: post := by
  intro pre
  induction pre with
  | nil =>
    intro a post name _ ha
    simp [updateAgent, ha]
  | cons b pre ih =>
    intro a post name hpre ha
    have hb : b.name ≠ name := hpre b (List.mem_cons_self b pre)
    simp only [List.cons_append, updateAgent, if_neg hb, List.append_eq]
    rw [ih a post name (fun c hc => hpre c (List.mem_cons_of_mem b hc)) ha]

theorem releaseTaskFromAgent_found {reg : Registry} {name : String} {a : Agent}
    (tid : String) (s : Bool) (h : getAgentByName reg name = some a) :
    ∃ pre post, reg = pre ++ a :: post ∧ (∀ b ∈ pre, b.name ≠ name) ∧
      releaseTaskFromAgent reg name tid s = pre ++ releaseAgentUpdate a s :: post := by
  obtain ⟨ha, pre, post, hsplit, hpre⟩ := getAgentByName_some_split h
  refine ⟨pre, post, hsplit, hpre, ?_⟩
  simp only [releaseTaskFromAgent, h]
  rw [hsplit, updateAgent_split _ pre a post name hpre ha]

theorem assignTaskToAgent_found {reg : Registry} {name : String} {a : Agent}
    (tid : String) (h : getAgentByName reg name = some a)
    (hcap : a.currentTasks < a.maxConcurrentTasks) :
    ∃ pre post, reg = pre ++ a :: post ∧ (∀ b ∈ pre, b.name ≠ name) ∧
      assignTaskToAgent reg name tid =
        .ok ({ a with currentTasks := a.currentTasks + 1 },
          pre ++ { a with currentTasks := a.currentTasks + 1 } :: post) := by
  obtain ⟨ha, pre, post, hsplit, hpre⟩ := getAgentByName_some_split h
  refine ⟨pre, post, hsplit, hpre, ?_⟩
  simp only [assignTaskToAgent, h]
  rw [if_neg (not_le.mpr hcap), hsplit, updateAgent_split _ pre a post name hpre ha]

theorem mem_upsertAgent {reg : Registry} {a b : Agent}
    (hb : b ∈ upsertAgent reg a) : b ∈ reg ∨ b = a := by
  induction reg with
  | nil =>
    simp [upsertAgent] at hb
    exact Or.inr hb
  | cons c rest ih =>
    rw [upsertAgent] at hb
    by_cases hc : c.name = a.name
    · rw [if_pos hc] at hb
      rcases List.mem_cons.mp hb with h | h
      · exact Or.inr h
      · exact Or.inl (List.mem_cons_of_mem c h)
    · rw [if_neg hc] at hb
      rcases List.mem_cons.mp hb with h | h
      · exact Or.inl (h ▸ List.mem_cons_self c rest)
      · rcases ih h with h' | h'
        · exact Or.inl (List.mem_cons_of_mem c h')
        · exact Or.inr h'

theorem mem_regStep_reserve {reg : Registry} {n tid : String} {b : Agent}
    (hb : b ∈ regStep reg (.reserve n tid)) :
    b ∈ reg ∨ ∃ a ∈ reg, a.currentTasks < a.maxConcurrentTasks ∧
      b = { a with currentTasks := a.currentTasks + 1 } := by
  rw [regStep] at hb
  cases hfind : getAgentByName reg n with
  | none =>
    simp only [assignTaskToAgent, hfind] at hb
    exact Or.inl hb
  | some a =>
    by_cases hcap : a.maxConcurrentTasks ≤ a.currentTasks
    · simp only [assignTaskToAgent, hfind, if_pos hcap] at hb
      exact Or.inl hb
    · have hlt := not_le.mp hcap
      obtain ⟨pre, post, hsplit, _, hassign⟩ := assignTaskToAgent_found tid hfind hlt
      rw [hassign] at hb
      have hmem : a ∈ reg := by rw [hsplit]; simp
      rw [hsplit] at hb
      rcases List.mem_append.mp hb with h | h
      · exact Or.inl (by rw [hsplit]; exact List.mem_append_left _ h)
      · rcases List.mem_cons.mp h with h' | h'
        · exact Or.inr ⟨a, hmem, hlt, h'⟩
        · exact Or.inl (by rw [hsplit]; exact List.mem_append_right _ (List.mem_cons_of_mem _ h'))

theorem mem_regStep_release {reg : Registry} {n tid : String} {s : Bool} {b : Agent}
    (hb : b ∈ regStep reg (.release n tid s)) :
    b ∈ reg ∨ ∃ a ∈ reg, b = releaseAgentUpdate a s := by
  rw [regStep] at hb
  cases hfind : getAgentByName reg n with
  | none =>
    simp only [releaseTaskFromAgent, hfind] at hb
    exact Or.inl hb
  | some a =>
    obtain ⟨pre, post, hsplit, _, hrel⟩ := releaseTaskFromAgent_found tid s hfind
    rw [hrel] at hb
    have hmem : a ∈ reg := by rw [hsplit]; simp
    rcases List.mem_append.mp hb with h | h
    · exact Or.inl (by rw [hsplit]; exact List.mem_append_left _ h)
    · rcases List.mem_cons.mp h with h' | h'
      · exact Or.inr ⟨a, hmem, h'⟩
      · exact Or.inl (by rw [hsplit]; exact List.mem_append_right _ (List.mem_cons_of_mem _ h'))

theorem agentInv_regStep {reg : Registry} (op : RegOp)
    (h : ∀ b ∈ reg, agentInv b) : ∀ b ∈ regStep reg op, agentInv b := by
  intro b hb
  cases op with
  | reserve n tid =>
    rcases mem_regStep_reserve hb with h' | ⟨a, ha, hlt, rfl⟩
    · exact h b h'
    · obtain ⟨h₁, _⟩ := h a ha
      exact ⟨by show (0 : Int) ≤ a.currentTasks + 1; omega,
        by show a.currentTasks + 1 ≤ a.maxConcurrentTasks; omega⟩
  | release n tid s =>
    rcases mem_regStep_release hb with h' | ⟨a, ha, rfl⟩
    · exact h b h'
    · obtain ⟨h₁, h₂⟩ := h a ha
      refine ⟨le_max_left _ _, ?_⟩
      have : (0 : Int) ≤ a.maxConcurrentTasks := h₁.trans h₂
      simp only [releaseAgentUpdate]
      omega

theorem perfInv_releaseAgentUpdate (a : Agent) (s : Bool) :
    perfInv (releaseAgentUpdate a s).performance := by
  constructor
  · intro h
    simp [releaseAgentUpdate] at h
  · intro _
    rfl

/-! ### Claim C1 -/

/-- C1: for every agent and every sequence of reserve (`assignTaskToAgent`)
and release (`releaseTaskFromAgent`) operations starting from registration,
`0 ≤ currentTasks ≤ maxConcurrentTasks` holds at every point: registration
establishes the bounds for the new agent (and preserves them elsewhere), a
reserve refuses to increment past `maxConcurrentTasks`, and a release never
decrements below `0` even under duplicate calls. -/
theorem currentTasks_bounds_invariant :
    (∀ (reg : Registry) (spec : AgentSpec),
      (∀ b ∈ reg, agentInv b) → ∀ b ∈ (registerAgent reg spec).2, agentInv b) ∧
    (∀ (reg : Registry) (ops : List RegOp),
      (∀ b ∈ reg, agentInv b) → ∀ b ∈ ops.foldl regStep reg, agentInv b) := by
  constructor
  · intro reg spec h b hb
    rcases mem_upsertAgent hb with h' | rfl
    · exact h b h'
    · constructor
      · show (0 : Int) ≤ 0
        exact le_refl 0
      · show (0 : Int) ≤ _
        exact Int.natCast_nonneg _
  · intro reg ops
    induction ops generalizing reg with
    | nil =>
      intro h b hb
      exact h b hb
    | cons op ops ih =>
      intro h b hb
      exact ih (regStep reg op) (agentInv_regStep op h) b hb

/-- Witness for C1: three reservations against a fresh capacity-2 agent (the
third throws) leave the agent at `currentTasks = 2`, within bounds. -/
theorem currentTasks_bounds_invariant_witness : agentInv wFinal := by
  have hfold : wOps.foldl regStep c2Reg = [wFinal] := rfl
  have hinv : ∀ b ∈ c2Reg, agentInv b := by
    intro b hb
    have hb' : b = c2Start := List.mem_singleton.mp hb
    subst hb'
    decide
  exact currentTasks_bounds_invariant.2 c2Reg wOps hinv wFinal
    (by rw [hfold]; exact List.mem_singleton_self _)

/-! ### Claim C2 -/

/-- C2: after any sequence of release calls on a registered agent,
`successRate = completedTasks / totalTasks` when `totalTasks > 0` and `0`
when `totalTasks = 0`; each release updates exactly the named agent's entry,
incrementing `totalTasks` by 1 and exactly one of `completedTasks` or
`failedTasks` by 1 according to the success flag. -/
theorem successRate_invariant :
    (∀ (reg : Registry) (spec : AgentSpec),
      perfInv ((registerAgent reg spec).1).performance) ∧
    (∀ (reg : Registry) (name : String) (calls : List (String × Bool)),
      (∀ b ∈ reg, perfInv b.performance) →
      ∀ b ∈ calls.foldl (fun r c => releaseTaskFromAgent r name c.1 c.2) reg,
        perfInv b.performance) ∧
    (∀ (reg : Registry) (name tid : String) (s : Bool) (a : Agent),
      getAgentByName reg name = some a →
      ∃ pre post, reg = pre ++ a :: post ∧
        releaseTaskFromAgent reg name tid s = pre ++ releaseAgentUpdate a s :: post) ∧
    (∀ (a : Agent) (s : Bool),
      (releaseAgentUpdate a s).performance.totalTasks = a.performance.totalTasks + 1 ∧
      (releaseAgentUpdate a s).performance.completedTasks =
        a.performance.completedTasks + (if s then 1 else 0) ∧
      (releaseAgentUpdate a s).performance.failedTasks =
        a.performance.failedTasks + (if s then 0 else 1) ∧
      (releaseAgentUpdate a s).performance.successRate =
        ((releaseAgentUpdate a s).performance.completedTasks : ℚ) /
          ((releaseAgentUpdate a s).performance.totalTasks : ℚ)) := by
  refine ⟨?_, ?_, ?_, ?_⟩
  · intro reg spec
    exact ⟨fun _ => rfl, fun h => absurd h (lt_irrefl 0)⟩
  · intro reg name calls
    induction calls generalizing reg with
    | nil =>
      intro h b hb
      exact h b hb
    | cons c calls ih =>
      intro h b hb
      refine ih (releaseTaskFromAgent reg name c.1 c.2) ?_ b hb
      intro b' hb'
      rcases mem_regStep_release (show b' ∈ regStep reg (.release name c.1 c.2) from hb') with
        h' | ⟨a, _, rfl⟩
      · exact h b' h'
      · exact perfInv_releaseAgentUpdate a c.2
  · intro reg name tid s a hfind
    obtain ⟨pre, post, hsplit, _, hrel⟩ := releaseTaskFromAgent_found tid s hfind
    exact ⟨pre, post, hsplit, hrel⟩
  · intro a s
    cases s <;> exact ⟨rfl, rfl, rfl, rfl⟩

/-- Witness for C2: one successful and one failed release against a fresh
agent leave `totalTasks = 2`, `completedTasks = 1`, `failedTasks = 1` and
`successRate = 1/2`. -/
theorem successRate_invariant_witness : perfInv c2Final.performance := by
  have hfold :
      c2Calls.foldl (fun r c => releaseTaskFromAgent r "w" c.1 c.2) c2Reg = [c2Final] := rfl
  have hinv : ∀ b ∈ c2Reg, perfInv b.performance := by
    intro b hb
    have hb' : b = c2Start := List.mem_singleton.mp hb
    subst hb'
    exact ⟨fun _ => rfl, fun h => absurd h (by decide)⟩
  exact successRate_invariant.2.1 c2Reg "w" c2Calls hinv c2Final
    (by rw [hfold]; exact List.mem_singleton_self _)

/-! ### Claim C5 -/

/-- C5: a reserve (`assignTaskToAgent`) fails with `NotFound` exactly when
the name is unregistered, fails with `CapacityExceeded` exactly when the
registered agent is at `currentTasks ≥ maxConcurrentTasks`, otherwise
succeeds and increments exactly that agent's `currentTasks` by 1; on either
failure the throw happens before any mutation, so the registry is
unchanged. -/
theorem assignTaskToAgent_spec :
    ∀ (reg : Registry) (name tid : String),
      (assignTaskToAgent reg name tid = .error (.notFound name) ↔
        getAgentByName reg name = none) ∧
      (assignTaskToAgent reg name tid = .error (.capacityExceeded name) ↔
        ∃ a, getAgentByName reg name = some a ∧ a.maxConcurrentTasks ≤ a.currentTasks) ∧
      (∀ a, getAgentByName reg name = some a → a.currentTasks < a.maxConcurrentTasks →
        ∃ pre post, reg = pre ++ a :: post ∧
          assignTaskToAgent reg name tid =
            .ok ({ a with currentTasks := a.currentTasks + 1 },
              pre ++ { a with currentTasks := a.currentTasks + 1 } :: post)) ∧
      (∀ e, assignTaskToAgent reg name tid = .error e →
        regStep reg (.reserve name tid) = reg) := by
  intro reg name tid
  cases hfind : getAgentByName reg name with
  | none =>
    refine ⟨?_, ?_, ?_, ?_⟩
    · simp [assignTaskToAgent, hfind]
    · simp [assignTaskToAgent, hfind]
    · intro a ha
      exact absurd ha (by simp)
    · intro e _
      simp [regStep, assignTaskToAgent, hfind]
  | some a =>
    by_cases hcap : a.maxConcurrentTasks ≤ a.currentTasks
    · refine ⟨?_, ?_, ?_, ?_⟩
      · simp [assignTaskToAgent, hfind, if_pos hcap]
      · constructor
        · intro _
          exact ⟨a, rfl, hcap⟩
        · intro _
          simp [assignTaskToAgent, hfind, if_pos hcap]
      · intro a' ha' hlt
        obtain rfl : a' = a := by injection ha' with h; exact h.symm
        exact absurd hcap (not_le.mpr hlt)
      · intro e _
        simp [regStep, assignTaskToAgent, hfind, if_pos hcap]
    · have hlt := not_le.mp hcap
      obtain ⟨pre, post, hsplit, hpre, hassign⟩ := assignTaskToAgent_found tid hfind hlt
      refine ⟨?_, ?_, ?_, ?_⟩
      · rw [hassign]
        simp [hfind]
      · rw [hassign]
        constructor
        · intro h
          exact absurd h (by simp)
        · rintro ⟨a', ha', hcap'⟩
          obtain rfl : a' = a := by injection ha' with h; exact h.symm
          exact absurd hcap' hcap
      · intro a' ha' _
        obtain rfl : a' = a := by injection ha' with h; exact h.symm
        exact ⟨pre, post, hsplit, hassign⟩
      · intro e he
        rw [hassign] at he
        exact absurd he (by simp)

/-- Witness for C5: the unknown name `"x"` throws `NotFound`, and a
successful reserve on the one-agent registry increments `currentTasks`. -/
theorem assignTaskToAgent_spec_witness :
    assignTaskToAgent ([] : Registry) "x" "t" = .error (.notFound "x") ∧
    (∃ pre post, c2Reg = pre ++ c2Start :: post ∧
      assignTaskToAgent c2Reg "w" "t9" =
        .ok ({ c2Start with currentTasks := c2Start.currentTasks + 1 },
          pre ++ { c2Start with currentTasks := c2Start.currentTasks + 1 } :: post)) := by
  constructor
  · exact (assignTaskToAgent_spec [] "x" "t").1.mpr rfl
  · exact (assignTaskToAgent_spec c2Reg "w" "t9").2.2.1 c2Start rfl (by decide)

/-! ### Claim C10 -/

/-- C10: a release (`releaseTaskFromAgent`) with an unregistered agent name
is a silent no-op: the function is total (it never throws) and returns the
registry unchanged. -/
theorem releaseTaskFromAgent_unknown :
    ∀ (reg : Registry) (name tid : String) (s : Bool),
      getAgentByName reg name = none → releaseTaskFromAgent reg name tid s = reg := by
  intro reg name tid s h
  simp [releaseTaskFromAgent, h]

/-- Witness for C10: releasing the unknown name `"zz"` leaves the one-agent
registry untouched. -/
theorem releaseTaskFromAgent_unknown_witness :
    releaseTaskFromAgent c2Reg "zz" "t1" true = c2Reg :=
  releaseTaskFromAgent_unknown c2Reg "zz" "t1" true rfl

/-! ### Claim C4 -/

theorem test_cond_eq (t : String) :
    (strIncludes t "test" || strIncludes t "testing") = strIncludes t "test" := by
  cases h : strIncludes t "test" with
  | true => simp
  | false =>
    cases h₂ : strIncludes t "testing" with
    | false => simp
    | true =>
      have hsplit : "testing".data = "test".data ++ "ing".data := by decide
      have : strIncludes t "test" = true := by
        rw [strIncludes]
        rw [strIncludes, hsplit] at h₂
        exact charsContain_of_append h₂
      rw [h] at this
      cases this

theorem deploy_cond_eq (t : String) :
    (strIncludes t "deploy" || strIncludes t "deployment") = strIncludes t "deploy" := by
  cases h : strIncludes t "deploy" with
  | true => simp
  | false =>
    cases h₂ : strIncludes t "deployment" with
    | false => simp
    | true =>
      have hsplit : "deployment".data = "deploy".data ++ "ment".data := by decide
      have : strIncludes t "deploy" = true := by
        rw [strIncludes]
        rw [strIncludes, hsplit] at h₂
        exact charsContain_of_append h₂
      rw [h] at this
      cases this

/-- C4 (amended): the capability array computed by
`extractRequiredCapabilities` equals the claim's rule-table union *as a set*:
an element belongs to it exactly when it belongs to the duplicate-free union
of the capabilities of all matching rows (with the
`{code_generation, problem_solving}` default); the array itself may contain
duplicate entries, so it is the deduplication of the computed array that is
the claimed set. -/
theorem extractRequiredCapabilities_spec :
    ∀ task : String,
      specRequiredCapabilities task = (extractRequiredCapabilities task).dedup ∧
      ∀ c : String,
        (c ∈ extractRequiredCapabilities task ↔ c ∈ specRequiredCapabilities task) := by
  intro task
  have key : ∀ (L D : List String), D = D.dedup →
      ((if (L.dedup).isEmpty then D else L.dedup) = (if L.isEmpty then D else L).dedup ∧
        ∀ c, (c ∈ (if L.isEmpty then D else L) ↔
          c ∈ (if (L.dedup).isEmpty then D else L.dedup))) := by
    intro L D hD
    by_cases hL : L = []
    · subst hL
      simp only [List.dedup_nil, List.isEmpty_nil, if_pos]
      exact ⟨hD, fun c => trivial⟩
    · have h₁ : ¬ L.isEmpty = true := by simpa [List.isEmpty_iff] using hL
      have h₂ : ¬ (L.dedup).isEmpty = true := by
        simp only [List.isEmpty_iff, List.dedup_eq_nil]
        exact hL
      rw [if_neg h₂, if_neg h₁]
      exact ⟨rfl, fun c => (List.mem_dedup).symm⟩
  rw [extractRequiredCapabilities, specRequiredCapabilities, test_cond_eq, deploy_cond_eq]
  exact key _ ["code_generation", "problem_solving"] (by decide)

/-- Counterexample for C4: the description `"build test"` triggers both the
build row and the test row, and the computed array is
`[code_generation, testing, testing]` — it contains a duplicate, so it is
not the duplicate-free union the claim describes. -/
theorem extractRequiredCapabilities_cex :
    extractRequiredCapabilities "build test" = ["code_generation", "testing", "testing"] ∧
    ¬ (extractRequiredCapabilities "build test").Nodup ∧
    extractRequiredCapabilities "build test" ≠ specRequiredCapabilities "build test" := by
  refine ⟨by decide, by decide, by decide⟩

/-! ### Claim C6 -/

/-- C6: for every execution through `executeTaskWithAgent`, whatever the Task
Executor's outcome, exactly one `releaseTaskFromAgent` call is made for the
assigned agent on the terminal transition — with `success = true` on the
completed branch and `success = false` on the failed branch — so no
reservation leaks and none is double-released; the task row reaches
`completed` with `progress = 100` and the stored result, or `failed` with the
error message stored. -/
theorem executeTaskWithAgent_release_once :
    ∀ (reg : Registry) (agent : Agent) (tid : String) (row : TaskRow)
      (outcome : Except String String),
      (executeTaskWithAgent reg agent tid row outcome).2.2.2.length = 1 ∧
      (∀ r, outcome = .ok r →
        executeTaskWithAgent reg agent tid row outcome =
          (.ok r, updateTaskStatus row "completed" (some 100) (some r) none,
            releaseTaskFromAgent reg agent.name tid true, [true]) ∧
        ((executeTaskWithAgent reg agent tid row outcome).2.1).status = "completed" ∧
        ((executeTaskWithAgent reg agent tid row outcome).2.1).progress = 100 ∧
        ((executeTaskWithAgent reg agent tid row outcome).2.1).result = some r) ∧
      (∀ e, outcome = .error e →
        executeTaskWithAgent reg agent tid row outcome =
          (.error e, updateTaskStatus row "failed" (some 0) none (some e),
            releaseTaskFromAgent reg agent.name tid false, [false]) ∧
        ((executeTaskWithAgent reg agent tid row outcome).2.1).status = "failed" ∧
        ((executeTaskWithAgent reg agent tid row outcome).2.1).errorMessage = some e) := by
  intro reg agent tid row outcome
  refine ⟨?_, ?_, ?_⟩
  · cases outcome <;> rfl
  · rintro r rfl
    exact ⟨rfl, rfl, rfl, rfl⟩
  · rintro e rfl
    exact ⟨rfl, rfl, rfl⟩

/-- Witness for C6: a successful and a failing executor outcome against the
one-agent registry each trigger exactly one release, with the matching
flag. -/
theorem executeTaskWithAgent_release_once_witness :
    (executeTaskWithAgent c2Reg c2Start "t1" rowInProgress (.ok "done") =
      (.ok "done", updateTaskStatus rowInProgress "completed" (some 100) (some "done") none,
        releaseTaskFromAgent c2Reg c2Start.name "t1" true, [true])) ∧
    (executeTaskWithAgent c2Reg c2Start "t2" rowInProgress (.error "boom") =
      (.error "boom", updateTaskStatus rowInProgress "failed" (some 0) none (some "boom"),
        releaseTaskFromAgent c2Reg c2Start.name "t2" false, [false])) := by
  constructor
  · exact ((executeTaskWithAgent_release_once c2Reg c2Start "t1" rowInProgress
      (.ok "done")).2.1 "done" rfl).1
  · exact ((executeTaskWithAgent_release_once c2Reg c2Start "t2" rowInProgress
      (.error "boom")).2.2 "boom" rfl).1

/-! ### Claim C7 -/

/-- C7 (amended): every iteration of the dispatch loop first reorders the
queue by descending priority rank `urgent(4) > high(3) > medium(2) > low(1)`,
stably with respect to insertion order; then, **if** (not while — at most one
dispatch per iteration) fewer than `maxConcurrency = 10` tasks are running
and the queue is non-empty, the single head task is dequeued and started.
Hence the running count never exceeds 10, and an urgent task enqueued after
a medium task is dispatched before it when capacity is available. -/
theorem processQueue_iteration_spec :
    (∀ s : SchedState, s.processing.length ≤ 10 →
      (processIteration s).processing.length ≤ 10) ∧
    (∀ q : List QTask,
      (sortQueue q).Perm q ∧
      (sortQueue q).Pairwise
        (fun a b => priorityOrder b.priority ≤ priorityOrder a.priority) ∧
      (∀ a b : QTask, List.Sublist [a, b] q →
        priorityOrder b.priority ≤ priorityOrder a.priority →
        List.Sublist [a, b] (sortQueue q))) ∧
    (∀ (s : SchedState) (t : QTask) (rest : List QTask),
      sortQueue s.queue = t :: rest → s.processing.length < 10 →
      processIteration s =
        { queue := rest, processing := s.processing ++ [t.id], failed := s.failed }) ∧
    (∀ s : SchedState, ¬ s.processing.length < 10 →
      processIteration s = { s with queue := sortQueue s.queue }) ∧
    (∀ (s : SchedState) (tm tu : QTask), s.queue = [tm, tu] →
      tm.priority = .medium → tu.priority = .urgent → s.processing.length < 10 →
      processIteration s =
        { queue := [tm], processing := s.processing ++ [tu.id], failed := s.failed }) := by
  have hdispatch : ∀ (s : SchedState) (t : QTask) (rest : List QTask),
      sortQueue s.queue = t :: rest → s.processing.length < 10 →
      processIteration s =
        { queue := rest, processing := s.processing ++ [t.id], failed := s.failed } := by
    intro s t rest hq hlt
    simp only [processIteration, hq, decide_eq_true hlt]
  refine ⟨?_, ?_, hdispatch, ?_, ?_⟩
  · intro s h
    simp only [processIteration]
    cases hq : sortQueue s.queue with
    | nil => simpa using h
    | cons t rest =>
      cases hlt : decide (s.processing.length < 10) with
      | false => simpa using h
      | true =>
        have hlt' := of_decide_eq_true hlt
        simp only [List.length_append, List.length_cons, List.length_nil]
        omega
  · intro q
    refine ⟨List.mergeSort_perm q _, ?_, ?_⟩
    · have hs := List.sorted_mergeSort
        (descLE_trans (fun t : QTask => priorityOrder t.priority))
        (descLE_total (fun t : QTask => priorityOrder t.priority)) q
      exact hs.imp (fun h => by simpa [descLE] using h)
    · intro a b hsub hle
      exact List.pair_sublist_mergeSort
        (descLE_trans (fun t : QTask => priorityOrder t.priority))
        (descLE_total (fun t : QTask => priorityOrder t.priority))
        (by simpa [descLE] using hle) hsub
  · intro s hge
    simp only [processIteration, decide_eq_false hge]
    cases hq : sortQueue s.queue <;> rfl
  · intro s tm tu hq htm htu hlt
    have hsort : sortQueue s.queue = [tu, tm] := by
      rw [hq, sortQueue, mergeSort_pair]
      rw [if_neg]
      simp only [descLE, htm, htu, priorityOrder, decide_eq_true_eq]
      omega
    exact hdispatch s tu [tm] hsort hlt

/-- Witness for C7: from a queue holding a medium task enqueued before an
urgent one and no running tasks, one iteration dispatches exactly the urgent
task and stays within the concurrency cap. -/
theorem processQueue_iteration_spec_witness :
    (processIteration c7WitState).processing.length ≤ 10 ∧
    processIteration c7WitState = { queue := [qtMed1], processing := ["u1"], failed := [] } := by
  constructor
  · exact processQueue_iteration_spec.1 c7WitState (by decide)
  · have h :=
      processQueue_iteration_spec.2.2.2.2 c7WitState qtMed1 qtUrg rfl rfl rfl (by decide)
    simpa [c7WitState, qtUrg] using h

/-- Counterexample for C7: with two queued tasks and nothing running, an
iteration that drained the queue "while" below capacity (the claim's words)
would start both tasks, but the source's iteration starts exactly one and
leaves the other queued. -/
theorem processQueue_iteration_cex :
    processIteration c7CexState = { queue := [qtMed2], processing := ["m1"], failed := [] } ∧
    claimIteration c7CexState = { queue := [], processing := ["m1", "m2"], failed := [] } ∧
    claimIteration c7CexState ≠ processIteration c7CexState := by
  have hsort : sortQueue [qtMed1, qtMed2] = [qtMed1, qtMed2] := by
    rw [sortQueue, mergeSort_pair]
    rw [if_pos]
    simp [descLE, qtMed1, qtMed2, priorityOrder]
  have h₁ : processIteration c7CexState =
      { queue := [qtMed2], processing := ["m1"], failed := [] } := by
    simp only [processIteration, c7CexState]
    rw [hsort]
    simp [qtMed1]
  have h₂ : claimIteration c7CexState =
      { queue := [], processing := ["m1", "m2"], failed := [] } := by
    simp only [claimIteration, c7CexState]
    rw [hsort]
    simp [drainLoop, qtMed1, qtMed2]
  refine ⟨h₁, h₂, ?_⟩
  rw [h₁, h₂]
  simp

/-! ### Claim C8 -/

/-- C8: cancelling a task still in the unprocessed queue removes exactly that
task from the queue (all other queued tasks stay, in order) and returns it
with status `cancelled`; cancelling a task that has left the queue and is
processing throws `CancellationRejected` before any mutation, so the state
is unchanged. -/
theorem cancelTask_spec :
    ∀ (s : SchedState) (tid : String),
      (∀ t, s.queue.find? (fun u => u.id == tid) = some t →
        ∃ pre post, s.queue = pre ++ t :: post ∧ t.id = tid ∧
          (∀ u ∈ pre, u.id ≠ tid) ∧
          cancelTask s tid =
            .ok ({ t with status := TaskStatus.cancelled },
              { s with queue := pre ++ post })) ∧
      ((∀ t ∈ s.queue, t.id ≠ tid) → tid ∈ s.processing →
        cancelTask s tid = .error .cancellationRejected ∧
        cancelTaskStep s tid = s) := by
  intro s tid
  constructor
  · intro t hfind
    obtain ⟨hpt, pre, post, hsplit, hpre⟩ := List.find?_eq_some.mp hfind
    have htid : t.id = tid := by simpa using hpt
    have hpre' : ∀ u ∈ pre, u.id ≠ tid := by
      intro u hu
      simpa using hpre u hu
    have hpreB : ∀ u ∈ pre, ¬ ((fun u => u.id == tid) u = true) := by
      intro u hu
      simpa using hpre u hu
    refine ⟨pre, post, hsplit, htid, hpre', ?_⟩
    simp only [cancelTask, hfind]
    rw [hsplit, List.eraseP_append_right _ hpreB,
      show List.eraseP (fun u => u.id == tid) (t :: post) = post from
        List.eraseP_cons_of_pos hpt]
  · intro hall hproc
    have hnone : s.queue.find? (fun u => u.id == tid) = none := by
      rw [List.find?_eq_none]
      intro t ht
      simpa using hall t ht
    have hcontains : s.processing.contains tid = true :=
      List.elem_eq_true_of_mem hproc
    have herr : cancelTask s tid = .error .cancellationRejected := by
      simp only [cancelTask, hnone, hcontains, if_pos]
    exact ⟨herr, by rw [cancelTaskStep, herr]⟩

/-- Witness for C8: cancelling queued `"m1"` removes it and marks it
cancelled; cancelling processing `"p1"` is rejected and changes nothing. -/
theorem cancelTask_spec_witness :
    (∃ pre post, c8State.queue = pre ++ qtMed1 :: post ∧ qtMed1.id = "m1" ∧
      (∀ u ∈ pre, u.id ≠ "m1") ∧
      cancelTask c8State "m1" =
        .ok ({ qtMed1 with status := TaskStatus.cancelled },
          { c8State with queue := pre ++ post })) ∧
    cancelTask c8State "p1" = .error .cancellationRejected ∧
    cancelTaskStep c8State "p1" = c8State := by
  refine ⟨(cancelTask_spec c8State "m1").1 qtMed1 rfl, ?_, ?_⟩
  · exact ((cancelTask_spec c8State "p1").2 (by decide) (by decide)).1
  · exact ((cancelTask_spec c8State "p1").2 (by decide) (by decide)).2

/-! ### Claim C9 -/

/-- C9: retrying a task recorded in the `failed` map yields a task with
status `queued`, `retryCount` incremented by exactly 1, `error` cleared and
the original priority preserved, appended at the tail of the queue, with the
entry deleted from the failed map (under the map's key uniqueness no entry
for that id remains); retrying an id not in the failed map throws
`NotFound`. -/
theorem retryTask_spec :
    ∀ (s : SchedState) (tid : String),
      (∀ e, s.failed.find? (fun e' => e'.id == tid) = some e →
        retryTask s tid =
          .ok (retriedTask e.task,
            { s with
              failed := s.failed.eraseP (fun e' => e'.id == tid)
              queue := s.queue ++ [retriedTask e.task] }) ∧
        (retriedTask e.task).status = TaskStatus.queued ∧
        (retriedTask e.task).retryCount = e.task.retryCount + 1 ∧
        (retriedTask e.task).errorMessage = none ∧
        (retriedTask e.task).priority = e.task.priority ∧
        ((s.failed.map FailedEntry.id).Nodup →
          ∀ e' ∈ s.failed.eraseP (fun e' => e'.id == tid), e'.id ≠ tid)) ∧
      (s.failed.find? (fun e' => e'.id == tid) = none →
        retryTask s tid = .error (.notFound tid)) := by
  intro s tid
  constructor
  · intro e hfind
    obtain ⟨hpe, pre, post, hsplit, hpre⟩ := List.find?_eq_some.mp hfind
    have heid : e.id = tid := by simpa using hpe
    have hpreB : ∀ u ∈ pre, ¬ ((fun e' => e'.id == tid) u = true) := by
      intro u hu
      simpa using hpre u hu
    refine ⟨by simp only [retryTask, hfind, retriedTask], rfl, rfl, rfl, rfl, ?_⟩
    intro hnodup e' he'
    rw [hsplit, List.eraseP_append_right _ hpreB,
      show List.eraseP (fun e' => e'.id == tid) (e :: post) = post from
        List.eraseP_cons_of_pos hpe] at he'
    rcases List.mem_append.mp he' with h | h
    · intro hc
      exact absurd hc (by simpa using hpre e' h)
    · rw [hsplit] at hnodup
      simp only [List.map_append, List.map_cons] at hnodup
      have hnotin : e.id ∉ post.map FailedEntry.id :=
        (List.nodup_cons.mp hnodup.of_append_right).1
      intro hc
      exact hnotin (List.mem_map.mpr ⟨e', h, by rw [hc, heid]⟩)
  · intro hnone
    simp only [retryTask, hnone]

/-- Witness for C9: retrying the failed `"f1"` re-queues it at the tail with
`retryCount` bumped from 1 to 2 and `error` cleared; retrying the unknown
`"zz"` throws `NotFound`. -/
theorem retryTask_spec_witness :
    retryTask c9State "f1" =
      .ok (retriedTask qtFailed,
        { c9State with
          failed := c9State.failed.eraseP (fun e' => e'.id == "f1")
          queue := c9State.queue ++ [retriedTask qtFailed] }) ∧
    (retriedTask qtFailed).retryCount = 2 ∧
    retryTask c9State "zz" = .error (.notFound "zz") := by
  refine ⟨((retryTask_spec c9State "f1").1 ⟨"f1", qtFailed, "boom"⟩ rfl).1, rfl,
    (retryTask_spec c9State "zz").2 rfl⟩

/-! ### Claim C3 -/

theorem byScoreDesc_eq : byScoreDesc = descLE (Prod.snd : Agent × ℚ → ℚ) := rfl

theorem exCapsHello :
    extractRequiredCapabilities "hello" = ["code_generation", "problem_solving"] := by decide

theorem exTypeHello : determineTaskType "hello" = "general_development" := by decide

theorem exFilterHello :
    (extractRequiredCapabilities "hello").filter
      (fun cap => exA09.capabilities.contains cap) = ["code_generation", "problem_solving"] := by
  decide

theorem exSpecHello :
    exA09.configuration.specializations.contains (determineTaskType "hello") = false := by
  decide

theorem score_exA09 : scoreAgent exA09 "hello" ctxEmpty = 140 := by
  simp only [scoreAgent]
  rw [exFilterHello, exSpecHello, exCapsHello]
  norm_num [exA09, ctxEmpty]

theorem exFilterHello05 :
    (extractRequiredCapabilities "hello").filter
      (fun cap => exA05.capabilities.contains cap) = ["code_generation", "problem_solving"] := by
  decide

theorem exSpecHello05 :
    exA05.configuration.specializations.contains (determineTaskType "hello") = false := by
  decide

theorem score_exA05 : scoreAgent exA05 "hello" ctxEmpty = 100 := by
  simp only [scoreAgent]
  rw [exFilterHello05, exSpecHello05, exCapsHello]
  norm_num [exA05, exA09, ctxEmpty]

theorem exFilterHello02 :
    (extractRequiredCapabilities "hello").filter
      (fun cap => exA02.capabilities.contains cap) = ["code_generation", "problem_solving"] := by
  decide

theorem exSpecHello02 :
    exA02.configuration.specializations.contains (determineTaskType "hello") = false := by
  decide

theorem score_exA02 : scoreAgent exA02 "hello" ctxEmpty = 70 := by
  simp only [scoreAgent]
  rw [exFilterHello02, exSpecHello02, exCapsHello]
  norm_num [exA02, exA09, ctxEmpty]

theorem selectBestAgent_char :
    ∀ (reg : Registry) (task : String) (ctx : ProjectContext),
      (selectBestAgent reg task ctx = .error .noAvailableAgent ↔
        getAvailableAgents reg = []) ∧
      (getAvailableAgents reg ≠ [] →
        ∃ ag pre post, selectBestAgent reg task ctx = .ok ag ∧
          getAvailableAgents reg = pre ++ ag :: post ∧
          (∀ b ∈ pre, scoreAgent b task ctx < scoreAgent ag task ctx) ∧
          (∀ b ∈ post, scoreAgent b task ctx ≤ scoreAgent ag task ctx)) := by
  intro reg task ctx
  cases havail : getAvailableAgents reg with
  | nil =>
    constructor
    · simp [selectBestAgent, havail]
    · intro h
      exact absurd rfl h
  | cons a rest =>
    have hne : (a :: rest).map (fun ag => (ag, scoreAgent ag task ctx)) ≠ [] := by simp
    obtain ⟨m, mtl, pre', post', hms, hsplit', hpre', hpost'⟩ :=
      head_mergeSort_spec (Prod.snd : Agent × ℚ → ℚ)
        ((a :: rest).map (fun ag => (ag, scoreAgent ag task ctx))) hne
    have hsel : selectBestAgent reg task ctx = .ok m.1 := by
      simp only [selectBestAgent, havail, byScoreDesc_eq, hms, List.isEmpty_cons,
        Bool.false_eq_true, if_false]
    have hval : ∀ q ∈ (a :: rest).map (fun ag => (ag, scoreAgent ag task ctx)),
        q.2 = scoreAgent q.1 task ctx := by
      intro q hq
      obtain ⟨x, _, rfl⟩ := List.mem_map.mp hq
      rfl
    constructor
    · rw [hsel]
      constructor
      · intro h
        exact absurd h (by simp)
      · intro h
        simp at h
    · intro _
      refine ⟨m.1, pre'.map Prod.fst, post'.map Prod.fst, hsel, ?_, ?_, ?_⟩
      · have hfst : ∀ l : List Agent,
            (l.map (fun ag => (ag, scoreAgent ag task ctx))).map Prod.fst = l := by
          intro l
          induction l with
          | nil => rfl
          | cons x xs ih => simp [ih]
        conv_lhs => rw [← hfst (a :: rest), hsplit']
        simp
      · intro b hb
        obtain ⟨p, hp, rfl⟩ := List.mem_map.mp hb
        have hpmem : p ∈ (a :: rest).map (fun ag => (ag, scoreAgent ag task ctx)) := by
          rw [hsplit']
          exact List.mem_append_left _ hp
        have hmmem : m ∈ (a :: rest).map (fun ag => (ag, scoreAgent ag task ctx)) := by
          rw [hsplit']
          exact List.mem_append_right _ (List.mem_cons_self _ _)
        have h := hpre' p hp
        rw [hval p hpmem, hval m hmmem] at h
        exact h
      · intro b hb
        obtain ⟨p, hp, rfl⟩ := List.mem_map.mp hb
        have hpmem : p ∈ (a :: rest).map (fun ag => (ag, scoreAgent ag task ctx)) := by
          rw [hsplit']
          exact List.mem_append_right _ (List.mem_cons_of_mem _ hp)
        have hmmem : m ∈ (a :: rest).map (fun ag => (ag, scoreAgent ag task ctx)) := by
          rw [hsplit']
          exact List.mem_append_right _ (List.mem_cons_self _ _)
        have h := hpost' p hp
        rw [hval p hpmem, hval m hmmem] at h
        exact h

theorem exAvailable : getAvailableAgents exReg = [exA09, exA05, exA02] := by
  simp [getAvailableAgents, exReg, exA09, exA05, exA02]

theorem exSelect : selectBestAgent exReg "hello" ctxEmpty = .ok exA09 := by
  obtain ⟨ag, pre, post, hsel, hsplit, hpre, hpost⟩ :=
    (selectBestAgent_char exReg "hello" ctxEmpty).2 (by rw [exAvailable]; simp)
  rw [exAvailable] at hsplit
  rcases pre with _ | ⟨p₁, pre⟩
  · simp only [List.nil_append] at hsplit
    injection hsplit with h1 _
    rw [hsel, ← h1]
  · simp only [List.cons_append] at hsplit
    injection hsplit with h1 hrest
    rcases pre with _ | ⟨p₂, pre⟩
    · simp only [List.nil_append] at hrest
      injection hrest with h2 _
      exfalso
      have h := hpre p₁ (List.mem_cons_self _ _)
      rw [← h1, ← h2, score_exA09, score_exA05] at h
      norm_num at h
    · simp only [List.cons_append] at hrest
      injection hrest with h2 hrest2
      rcases pre with _ | ⟨p₃, pre⟩
      · simp only [List.nil_append] at hrest2
        injection hrest2 with h3 _
        exfalso
        have h := hpre p₁ (List.mem_cons_self _ _)
        rw [← h1, ← h3, score_exA09, score_exA02] at h
        norm_num at h
      · simp only [List.cons_append] at hrest2
        injection hrest2 with h3 hrest3
        exact absurd hrest3.symm (by simp)

/-- C3 (amended): `selectBestAgent` operates over exactly the available
agents (active and strictly below capacity): it throws `NoAvailableAgent`
precisely on an empty available set, and otherwise returns an agent whose
score — computed as in the source, where the capability term divides the
*array lengths* `matchingCapabilities.length / requiredCapabilities.length`
(entries counted with multiplicity, since the required array may hold
duplicates) — is maximal, ties broken by registry iteration order (the
stable descending sort keeps the first-registered agent in front).  In
particular, among the three identical agents with success rates 0.9, 0.5,
0.2, the 0.9 agent is returned. -/
theorem selectBestAgent_spec :
    (∀ (reg : Registry) (task : String) (ctx : ProjectContext),
      (selectBestAgent reg task ctx = .error .noAvailableAgent ↔
        getAvailableAgents reg = []) ∧
      (getAvailableAgents reg ≠ [] →
        ∃ ag pre post, selectBestAgent reg task ctx = .ok ag ∧
          getAvailableAgents reg = pre ++ ag :: post ∧
          (∀ b ∈ pre, scoreAgent b task ctx < scoreAgent ag task ctx) ∧
          (∀ b ∈ post, scoreAgent b task ctx ≤ scoreAgent ag task ctx))) ∧
    selectBestAgent exReg "hello" ctxEmpty = .ok exA09 :=
  ⟨selectBestAgent_char, exSelect⟩

/-- Witness for C3: on the non-empty one-agent registry the selection
succeeds and returns a maximal-score decomposition. -/
theorem selectBestAgent_spec_witness :
    ∃ ag pre post, selectBestAgent c2Reg "hello" ctxEmpty = .ok ag ∧
      getAvailableAgents c2Reg = pre ++ ag :: post ∧
      (∀ b ∈ pre, scoreAgent b "hello" ctxEmpty < scoreAgent ag "hello" ctxEmpty) ∧
      (∀ b ∈ post, scoreAgent b "hello" ctxEmpty ≤ scoreAgent ag "hello" ctxEmpty) :=
  (selectBestAgent_spec.1 c2Reg "hello" ctxEmpty).2
    (by simp [getAvailableAgents, c2Reg, c2Start])

theorem cexAvailable : getAvailableAgents cexReg = [cexA, cexB] := by
  simp [getAvailableAgents, cexReg, cexA, cexB]

theorem cexCapsBTD :
    extractRequiredCapabilities "build test deploy" =
      ["code_generation", "testing", "testing", "deployment"] := by decide

theorem cexFilterA :
    (extractRequiredCapabilities "build test deploy").filter
      (fun cap => cexA.capabilities.contains cap) = ["testing", "testing"] := by decide

theorem cexSpecA :
    cexA.configuration.specializations.contains
      (determineTaskType "build test deploy") = false := by decide

theorem score_cexA : scoreAgent cexA "build test deploy" ctxEmpty = 25 := by
  simp only [scoreAgent]
  rw [cexFilterA, cexSpecA, cexCapsBTD]
  norm_num [cexA, ctxEmpty]

theorem cexFilterB :
    (extractRequiredCapabilities "build test deploy").filter
      (fun cap => cexB.capabilities.contains cap) =
      ["code_generation", "deployment"] := by decide

theorem cexSpecB :
    cexB.configuration.specializations.contains
      (determineTaskType "build test deploy") = false := by decide

theorem score_cexB : scoreAgent cexB "build test deploy" ctxEmpty = 25 := by
  simp only [scoreAgent]
  rw [cexFilterB, cexSpecB, cexCapsBTD]
  norm_num [cexB, cexA, ctxEmpty]

theorem cexSelectEval : selectBestAgent cexReg "build test deploy" ctxEmpty = .ok cexA := by
  simp only [selectBestAgent, cexAvailable, List.isEmpty_cons, Bool.false_eq_true,
    if_false, List.map_cons, List.map_nil, byScoreDesc_eq]
  rw [score_cexA, score_cexB, mergeSort_pair, if_pos]
  show descLE Prod.snd (cexA, (25 : ℚ)) (cexB, (25 : ℚ)) = true
  simp [descLE]

theorem cexSpecCapsBTD :
    specRequiredCapabilities "build test deploy" =
      ["code_generation", "testing", "deployment"] := by decide

theorem cexSpecFilterA :
    (specRequiredCapabilities "build test deploy").filter
      (fun cap => cexA.capabilities.contains cap) = ["testing"] := by decide

theorem cexSpecFilterB :
    (specRequiredCapabilities "build test deploy").filter
      (fun cap => cexB.capabilities.contains cap) =
      ["code_generation", "deployment"] := by decide

theorem specScore_cexA : specScoreAgent cexA "build test deploy" ctxEmpty = 50 / 3 := by
  simp only [specScoreAgent]
  rw [cexSpecFilterA, cexSpecA, cexSpecCapsBTD]
  norm_num [cexA, ctxEmpty]

theorem specScore_cexB : specScoreAgent cexB "build test deploy" ctxEmpty = 100 / 3 := by
  simp only [specScoreAgent]
  rw [cexSpecFilterB, cexSpecB, cexSpecCapsBTD]
  norm_num [cexB, cexA, ctxEmpty]

/-- Counterexample for C3: on `"build test deploy"` the required-capability
array is `[code_generation, testing, testing, deployment]`, so the source
scores `alpha` (capabilities `{testing}`) and `beta` (capabilities
`{code_generation, deployment}`) equally at 25 and returns the
first-registered `alpha`; under the claim's set-cardinality formula `beta`'s
score (100/3) strictly exceeds `alpha`'s (50/3), so the returned agent's
claimed score is not maximal over the available set. -/
theorem selectBestAgent_cex :
    selectBestAgent cexReg "build test deploy" ctxEmpty = .ok cexA ∧
    cexB ∈ getAvailableAgents cexReg ∧
    specScoreAgent cexA "build test deploy" ctxEmpty <
      specScoreAgent cexB "build test deploy" ctxEmpty := by
  refine ⟨cexSelectEval, ?_, ?_⟩
  · rw [cexAvailable]
    simp
  · rw [specScore_cexA, specScore_cexB]
    norm_num
